import Mathlib

/-!
Verification of the montblanc availability checker.

This file shallowly embeds the data model and the pure logic of the Go
program (internal/parser/parser.go, cmd/check/main.go, internal/web/web.go,
internal/store/bolt.go, internal/store/pg.go) and proves the spec-level
properties about it.

Modelling conventions:
* Go strings are Lean `String`s; character-level operations go through
  `String.toList`.
* Go `map[string]string` (and the bolt/postgres tables keyed by chat id)
  are association lists with an overwriting `putKV`; Go map insertion
  overwrites the value of an existing key and otherwise adds a new entry.
* `time.Time` values that are only compared or defaulted are `Nat`
  (0 is the Go zero time); calendar dates parsed with layout
  `"2006-01-02"` are `Nat × Nat × Nat` triples.
* Network effects are oracles: a fetch result is an `Except` value given
  as input, and the waiting-room refetch is an oracle `Nat → Except ...`
  indexed by retry depth, with explicit fuel standing for the (unbounded)
  recursion of the Go code.
-/

namespace Montblanc

/-! ## Association-list maps (Go `map[string]V` with insertion overwrite) -/

/-- Go map write `m[k] = v`: overwrite the entry for `k` if present,
otherwise append a fresh entry. -/
def putKV {α : Type} (m : List (String × α)) (k : String) (v : α) :
    List (String × α) :=
  match m with
  | [] => [(k, v)]
  | (k₀, v₀) :: rest =>
    if k₀ = k then (k, v) :: rest else (k₀, v₀) :: putKV rest k v

/-- Go map read `m[k]` (first matching entry). -/
def lookupKV {α : Type} (m : List (String × α)) (k : String) : Option α :=
  match m with
  | [] => none
  | (k₀, v₀) :: rest => if k₀ = k then some v₀ else lookupKV rest k

/-- The keys of an association-list map. -/
def keysKV {α : Type} (m : List (String × α)) : List String :=
  m.map Prod.fst

theorem lookupKV_putKV_self {α : Type} (m : List (String × α)) (k : String)
    (v : α) : lookupKV (putKV m k v) k = some v := by
  induction m with
  | nil => simp [putKV, lookupKV]
  | cons p rest ih =>
    obtain ⟨k₀, v₀⟩ := p
    by_cases h : k₀ = k
    · simp [putKV, lookupKV, h]
    · simp [putKV, lookupKV, h, ih]

theorem lookupKV_putKV_ne {α : Type} (m : List (String × α)) (k k' : String)
    (v : α) (h : k ≠ k') : lookupKV (putKV m k v) k' = lookupKV m k' := by
  induction m with
  | nil => simp [putKV, lookupKV, h]
  | cons p rest ih =>
    obtain ⟨k₀, v₀⟩ := p
    by_cases h₀ : k₀ = k
    · subst h₀
      simp [putKV, lookupKV, h]
    · by_cases h₁ : k₀ = k'
      · simp [putKV, lookupKV, h₀, h₁, Ne.symm h]
      · simp [putKV, lookupKV, h₀, h₁, ih]

theorem length_putKV_fresh {α : Type} (m : List (String × α)) (k : String)
    (v : α) (h : lookupKV m k = none) :
    (putKV m k v).length = m.length + 1 := by
  induction m with
  | nil => simp [putKV]
  | cons p rest ih =>
    obtain ⟨k₀, v₀⟩ := p
    by_cases h₀ : k₀ = k
    · simp [lookupKV, h₀] at h
    · simp [lookupKV, h₀] at h
      simp [putKV, h₀, ih h]

theorem length_putKV_hit {α : Type} (m : List (String × α)) (k : String)
    (v w : α) (h : lookupKV m k = some w) :
    (putKV m k v).length = m.length := by
  induction m with
  | nil => simp [lookupKV] at h
  | cons p rest ih =>
    obtain ⟨k₀, v₀⟩ := p
    by_cases h₀ : k₀ = k
    · simp [putKV, h₀]
    · simp [lookupKV, h₀] at h
      simp [putKV, h₀, ih h]

theorem keysKV_putKV_fresh {α : Type} (m : List (String × α)) (k : String)
    (v : α) (h : lookupKV m k = none) :
    keysKV (putKV m k v) = keysKV m ++ [k] := by
  induction m with
  | nil => simp [putKV, keysKV]
  | cons p rest ih =>
    obtain ⟨k₀, v₀⟩ := p
    by_cases h₀ : k₀ = k
    · simp [lookupKV, h₀] at h
    · simp [lookupKV, h₀] at h
      simp [putKV, keysKV, h₀] at ih ⊢
      exact ih h

theorem keysKV_putKV_hit {α : Type} (m : List (String × α)) (k : String)
    (v w : α) (h : lookupKV m k = some w) :
    keysKV (putKV m k v) = keysKV m := by
  induction m with
  | nil => simp [lookupKV] at h
  | cons p rest ih =>
    obtain ⟨k₀, v₀⟩ := p
    by_cases h₀ : k₀ = k
    · simp [putKV, keysKV, h₀]
    · simp [lookupKV, h₀] at h
      simp only [putKV, h₀, if_false, keysKV, List.map_cons]
      have := ih h
      simp only [keysKV] at this
      rw [this]

theorem lookupKV_eq_none_iff {α : Type} (m : List (String × α)) (k : String) :
    lookupKV m k = none ↔ k ∉ keysKV m := by
  induction m with
  | nil => simp [lookupKV, keysKV]
  | cons p rest ih =>
    obtain ⟨k₀, v₀⟩ := p
    by_cases h₀ : k₀ = k
    · simp [lookupKV, keysKV, h₀]
    · simp [lookupKV, keysKV, h₀, ih, Ne.symm h₀]

/-- Number of stored records for a given key. -/
def countKey {α : Type} (m : List (String × α)) (k : String) : Nat :=
  match m with
  | [] => 0
  | (k₀, _) :: rest => (if k₀ = k then 1 else 0) + countKey rest k

theorem countKey_eq_zero_of_not_mem {α : Type} (m : List (String × α))
    (k : String) (h : k ∉ keysKV m) : countKey m k = 0 := by
  induction m with
  | nil => simp [countKey]
  | cons p rest ih =>
    obtain ⟨k₀, v₀⟩ := p
    simp [keysKV] at h
    simp [countKey, Ne.symm h.1, ih (by simpa [keysKV] using h.2)]

theorem countKey_putKV {α : Type} (m : List (String × α)) (k : String)
    (v : α) (hnd : (keysKV m).Nodup) : countKey (putKV m k v) k = 1 := by
  induction m with
  | nil => simp [putKV, countKey]
  | cons p rest ih =>
    obtain ⟨k₀, v₀⟩ := p
    simp only [keysKV, List.map_cons, List.nodup_cons] at hnd
    by_cases h₀ : k₀ = k
    · subst h₀
      have : countKey rest k₀ = 0 :=
        countKey_eq_zero_of_not_mem rest k₀ (by simpa [keysKV] using hnd.1)
      simp [putKV, countKey, this]
    · simp only [putKV, h₀, if_false, countKey]
      simp [h₀, ih hnd.2]

/-! ## String helpers mirroring the Go standard library -/

/-- Go `strings.TrimSpace` (whitespace taken as `Char.isWhitespace`). -/
def trimGo (s : String) : String :=
  ⟨((s.toList.dropWhile Char.isWhitespace).reverse.dropWhile
      Char.isWhitespace).reverse⟩

/-- Go `strings.Split(s, "/")` on character lists. -/
def splitSlashL : List Char → List (List Char)
  | [] => [[]]
  | c :: rest =>
    if c = '/' then [] :: splitSlashL rest
    else
      match splitSlashL rest with
      | [] => [[c]]
      | g :: gs => (c :: g) :: gs

/-- Go `strings.Split(s, "/")`. -/
def splitSlash (s : String) : List String :=
  (splitSlashL s.toList).map (fun l => ⟨l⟩)

def isPrefixOfL : List Char → List Char → Bool
  | [], _ => true
  | _ :: _, [] => false
  | a :: restA, b :: restB => a = b && isPrefixOfL restA restB

def containsSubL (pat : List Char) : List Char → Bool
  | [] => isPrefixOfL pat []
  | c :: rest => isPrefixOfL pat (c :: rest) || containsSubL pat rest

/-- Go `strings.Contains(s, pat)`. -/
def containsSub (s pat : String) : Bool :=
  containsSubL pat.toList s.toList

/-- Left zero-padding to width `w`; Go `fmt` `%0ws` on strings and `%0wd`
on non-negative integers both pad with leading zeros and never truncate. -/
def padZero (w : Nat) (l : List Char) : List Char :=
  List.replicate (w - l.length) '0' ++ l

/-- The Go format `fmt.Sprintf("%04d-%02s-%02s", year, month, day)` from
parser.go: the canonical date key built from the anchor year and the
month/day tokens scraped out of the calendar HTML. -/
def formattedDate (year : Nat) (month day : String) : String :=
  ⟨(padZero 4 (toString year).toList ++ ['-']) ++
    (padZero 2 month.toList ++ ['-']) ++ padZero 2 day.toList⟩

/-! ## Availability extractor (internal/parser/parser.go) -/

/-- One `.day.dispo` element: the text of its first `span.date` and first
`span.place` child, when present. -/
structure DispoDay where
  dateSpan : Option String
  placeSpan : Option String
deriving DecidableEq

/-- The document-level view the extractor reads from a fetched response:
the raw text (for the login/waiting-room markers) plus the `.day.dispo`
and `.day.complet` matches in document order.  `goquery` HTML parsing of
a string never fails, so no parse-failure case is modelled. -/
structure RefugeHtml where
  content : String
  dispoDays : List DispoDay
  completDays : List String
deriving DecidableEq

/-- Failures of the fetch/parse pipeline.  `reauthRequired` is
`parser.ErrReauthNeeded`; `fetchFailed` stands for any error of
`makeAvailabilityRequest` (transport failure or non-200 status);
`noDatesFound` is the `fmt.Errorf("no dates found for any refuge")`
value, distinct from `ErrReauthNeeded` under `errors.Is`;
`waitingRetriesExhausted` marks running out of fuel in the waiting-room
retry loop, which the Go code would spend sleeping instead. -/
inductive PErr where
  | reauthRequired
  | fetchFailed
  | noDatesFound
  | waitingRetriesExhausted
deriving DecidableEq

structure Refuge where
  Name : String
  Dates : List (String × String)
deriving DecidableEq

def loginMarker : String := "My email"

def waitingMarker : String := "Your Rank in the waiting room"

def fullMarker : String := "Full"

/-- Body of the `.day.dispo` callback: require both spans, trim, require
both non-empty, split the day token on `/`, and record the place count
under the formatted date when the token has exactly two parts. -/
def addDispo (year : Nat) (dates : List (String × String)) (d : DispoDay) :
    List (String × String) :=
  match d.dateSpan, d.placeSpan with
  | some ds, some ps =>
    let date := trimGo ds
    let places := trimGo ps
    if date ≠ "" ∧ places ≠ "" then
      match splitSlash date with
      | [month, day] => putKV dates (formattedDate year month day) places
      | _ => dates
    else dates
  | _, _ => dates

/-- Body of the `.day.complet` callback: trim the whole element text and
record the `"Full"` marker under the formatted date. -/
def addComplet (year : Nat) (dates : List (String × String)) (c : String) :
    List (String × String) :=
  let date := trimGo c
  if date ≠ "" then
    match splitSlash date with
    | [month, day] => putKV dates (formattedDate year month day) fullMarker
    | _ => dates
  else dates

/-- Embedding of `parseRefugeContent`.  `retry` is the oracle giving the body of the
fresh `makeAvailabilityRequest` issued after a waiting-room response,
indexed by retry depth; `fuel` bounds that retry recursion, which is
unbounded in the Go code (it sleeps one minute per round). -/
def parseRefugeContent (retry : Nat → Except PErr RefugeHtml) (year : Nat) :
    Nat → Nat → RefugeHtml → List (String × String) →
      Except PErr (List (String × String))
  | fuel, depth, doc, dates =>
    if containsSub doc.content loginMarker then
      Except.error PErr.reauthRequired
    else if containsSub doc.content waitingMarker then
      match fuel with
      | 0 => Except.error PErr.waitingRetriesExhausted
      | fuel' + 1 =>
        match retry depth with
        | Except.error e => Except.error e
        | Except.ok doc' =>
          parseRefugeContent retry year fuel' (depth + 1) doc' dates
    else
      Except.ok (doc.completDays.foldl (addComplet year)
        (doc.dispoDays.foldl (addDispo year) dates))

/-- One refuge's inputs for a polling pass: its name, the result of its
`makeAvailabilityRequest`, and the waiting-room refetch oracle. -/
structure RefugeFetch where
  name : String
  fetched : Except PErr RefugeHtml
  retry : Nat → Except PErr RefugeHtml

/-- The per-refuge loop of `ParseRefugeAvailability`: a fetch error aborts
the whole call, but a parse error (including `ErrReauthNeeded`) is only
logged and the refuge is skipped, as is a refuge with zero dates. -/
def parseRefugesGo (fuel year : Nat) :
    List RefugeFetch → List Refuge → Nat → Except PErr (List Refuge × Nat)
  | [], acc, total => Except.ok (acc, total)
  | rf :: rest, acc, total =>
    match rf.fetched with
    | Except.error e => Except.error e
    | Except.ok doc =>
      match parseRefugeContent rf.retry year fuel 0 doc [] with
      | Except.error _ => parseRefugesGo fuel year rest acc total
      | Except.ok dates =>
        if dates.length = 0 then parseRefugesGo fuel year rest acc total
        else
          parseRefugesGo fuel year rest (acc ++ [⟨rf.name, dates⟩])
            (total + dates.length)

/-- Embedding of `ParseRefugeAvailability`: run the per-refuge loop and fail with the
generic no-dates error when nothing at all was extracted. -/
def ParseRefugeAvailability (fuel year : Nat) (inputs : List RefugeFetch) :
    Except PErr (List Refuge) :=
  match parseRefugesGo fuel year inputs [] 0 with
  | Except.error e => Except.error e
  | Except.ok (refs, total) =>
    if total = 0 then Except.error PErr.noDatesFound else Except.ok refs

/-! ## Polling cycle (cmd/check/main.go) -/

/-- Merging one parsed refuge into the per-window accumulator of
`fetchRefugesWindow` (existing entries get the new dates written over
their map, fresh entries get a copy). -/
def mergeOneRefuge (merged : List (String × Refuge)) (rf : Refuge) :
    List (String × Refuge) :=
  match lookupKV merged rf.Name with
  | some existing =>
    putKV merged rf.Name
      ⟨existing.Name, rf.Dates.foldl (fun m p => putKV m p.1 p.2) existing.Dates⟩
  | none =>
    putKV merged rf.Name
      ⟨rf.Name, rf.Dates.foldl (fun m p => putKV m p.1 p.2) []⟩

def fetchRefugesWindowGo (fuel : Nat) :
    List (Nat × List RefugeFetch) → List (String × Refuge) →
      Except PErr (List (String × Refuge))
  | [], merged => Except.ok merged
  | (year, inputs) :: rest, merged =>
    match ParseRefugeAvailability fuel year inputs with
    | Except.error e => Except.error e
    | Except.ok res => fetchRefugesWindowGo fuel rest (res.foldl mergeOneRefuge merged)

/-- Embedding of `fetchRefugesWindow`: parse every month anchor, merge by refuge name,
flatten.  Any anchor's error aborts the window. -/
def fetchRefugesWindow (fuel : Nat) (anchors : List (Nat × List RefugeFetch)) :
    Except PErr (List Refuge) :=
  match fetchRefugesWindowGo fuel anchors [] with
  | Except.error e => Except.error e
  | Except.ok merged => Except.ok (merged.map Prod.snd)

/-- One line of `newAvailabilities` in the main loop. -/
structure Avail where
  refuge : String
  date : String
  status : String
deriving DecidableEq

/-- The inner date loop of the snapshot scan: a date qualifies when its
status is not `"Full"` and it is not yet in `notifiedDates`; qualifying
dates are appended to `newAvailabilities` and marked notified on the
spot. -/
def scanDates (name : String) :
    List (String × String) → List Avail → List String →
      List Avail × List String
  | [], acc, notified => (acc, notified)
  | (date, status) :: rest, acc, notified =>
    if status ≠ fullMarker ∧ date ∉ notified then
      scanDates name rest (acc ++ [⟨name, date, status⟩]) (date :: notified)
    else scanDates name rest acc notified

def scanAll : List Refuge → List Avail → List String → List Avail × List String
  | [], acc, notified => (acc, notified)
  | rf :: rest, acc, notified =>
    let scanned := scanDates rf.Name rf.Dates acc notified
    scanAll rest scanned.1 scanned.2

/-- The snapshot scan of the main loop (lines building
`newAvailabilities` and updating `notifiedDates`). -/
def scanRefuges (refuges : List Refuge) (notified : List String) :
    List Avail × List String :=
  scanAll refuges [] notified

/-- The `totalDates` count of the main loop. -/
def totalDatesOf (refuges : List Refuge) : Nat :=
  (refuges.map (fun rf => rf.Dates.length)).sum

/-- Outcome of one tick of the main loop: how many operator
re-authentication alerts, scrape-failure warnings and grouped
availability notifications were sent, which lines were in the
availability message, and the notified-date set afterwards. -/
structure CycleReport where
  reauthAlerts : Nat
  scrapeWarnings : Nat
  availNotifications : Nat
  newAvailabilities : List Avail
  notified : List String
deriving DecidableEq

/-- One tick of the main loop after `fetchRefugesWindow` returns: the
reauth branch (`errors.Is(err, parser.ErrReauthNeeded)`), the generic
error branch (log and continue), the zero-total warning branch, and the
normal grouped-notification path. -/
def mainCycle (fetchResult : Except PErr (List Refuge))
    (notified : List String) : CycleReport :=
  match fetchResult with
  | Except.error PErr.reauthRequired => ⟨1, 0, 0, [], notified⟩
  | Except.error _ => ⟨0, 0, 0, [], notified⟩
  | Except.ok refuges =>
    let total := totalDatesOf refuges
    let scanned := scanRefuges refuges notified
    if total = 0 then ⟨0, 1, 0, [], scanned.2⟩
    else if 0 < scanned.1.length then ⟨0, 0, 1, scanned.1, scanned.2⟩
    else ⟨0, 0, 0, [], scanned.2⟩

/-- Iterated polling cycles at the scan level: each cycle scans its
snapshot against the notified-date set left by the previous one. -/
def runCycles : List (List Refuge) → List String →
    List (List Avail) × List String
  | [], notified => ([], notified)
  | rs :: rest, notified =>
    let scanned := scanRefuges rs notified
    let next := runCycles rest scanned.2
    (scanned.1 :: next.1, next.2)

/-! ## Calendar dates (`time.Parse("2006-01-02", s)`) -/

def digitVal (c : Char) : Nat := c.toNat - 48

def isDigitGo (c : Char) : Bool := '0' ≤ c && c ≤ '9'

def isLeapYear (y : Nat) : Bool := y % 4 = 0 && (y % 100 ≠ 0 || y % 400 = 0)

def daysInMonth (y m : Nat) : Nat :=
  if m = 2 then (if isLeapYear y then 29 else 28)
  else if m = 4 ∨ m = 6 ∨ m = 9 ∨ m = 11 then 30
  else 31

/-- Go `time.Parse("2006-01-02", s)`: exactly ten characters, four year and
two month/day digits with dash separators, month and day-of-month in
range.  Successfully parsed values compare as midnight UTC instants,
i.e. lexicographically as (year, month, day). -/
def parseDateGo (s : String) : Option (Nat × Nat × Nat) :=
  match s.toList with
  | [y1, y2, y3, y4, c1, m1, m2, c2, d1, d2] =>
    if isDigitGo y1 ∧ isDigitGo y2 ∧ isDigitGo y3 ∧ isDigitGo y4 ∧
        c1 = '-' ∧ isDigitGo m1 ∧ isDigitGo m2 ∧ c2 = '-' ∧
        isDigitGo d1 ∧ isDigitGo d2 then
      let y := ((digitVal y1 * 10 + digitVal y2) * 10 + digitVal y3) * 10 +
        digitVal y4
      let m := digitVal m1 * 10 + digitVal m2
      let d := digitVal d1 * 10 + digitVal d2
      if 1 ≤ m ∧ m ≤ 12 ∧ 1 ≤ d ∧ d ≤ daysInMonth y m then some (y, m, d)
      else none
    else none
  | _ => none

/-- Go `Time.Before` on two parsed calendar dates. -/
def dateLt (a b : Nat × Nat × Nat) : Bool :=
  a.1 < b.1 ∨ (a.1 = b.1 ∧ (a.2.1 < b.2.1 ∨ (a.2.1 = b.2.1 ∧ a.2.2 < b.2.2)))

/-! ## Saved queries and per-subscriber matching -/

/-- store.Query (timestamps as `Nat`). -/
structure Query where
  ID : String
  ChatID : String
  Refuge : String
  DateFrom : String
  DateTo : String
  CreatedAt : Nat
  LastUpdatedAt : Nat
deriving DecidableEq

/-- Embedding of `queryMatches` from cmd/check/main.go: location wildcard or exact
match, then the inclusive date window, where an empty bound or a bound
that fails to parse imposes no constraint, and an unparseable
availability date matches nothing once a bound is set. -/
def queryMatches (refuge date : String) (q : Query) : Bool :=
  if q.Refuge ≠ "*" ∧ q.Refuge ≠ refuge then false
  else if q.DateFrom = "" ∧ q.DateTo = "" then true
  else
    match parseDateGo date with
    | none => false
    | some d =>
      let fromViolated : Bool :=
        if q.DateFrom = "" then false
        else
          match parseDateGo q.DateFrom with
          | some f => dateLt d f
          | none => false
      let toViolated : Bool :=
        if q.DateTo = "" then false
        else
          match parseDateGo q.DateTo with
          | some t => dateLt t d
          | none => false
      !fromViolated && !toViolated

/-- The per-subscriber fan-out of the query-filtered main loop: for one
subscriber, each availability line matching any of the saved queries has
its date marked in the global notified set (the message send itself does
not touch the set and its failure is discarded). -/
def fanoutMarkOne (avails : List Avail) (qs : List Query)
    (notified : List String) : List String :=
  avails.foldl
    (fun n a =>
      if qs.any (fun q => queryMatches a.refuge a.date q) then a.date :: n
      else n)
    notified

/-- The subscriber loop of the fan-out: subscribers with no saved
queries are skipped. -/
def fanoutMark (avails : List Avail) (subscriberQueries : List (List Query))
    (notified : List String) : List String :=
  subscriberQueries.foldl
    (fun n qs => if qs.length = 0 then n else fanoutMarkOne avails qs n)
    notified

/-! ## Subscribers and the web subscribe handler -/

/-- store.Subscriber (timestamps as `Nat`, 0 = Go zero time). -/
structure Subscriber where
  ChatID : String
  Username : String
  FirstName : String
  LastName : String
  Language : String
  Plan : String
  CreatedAt : Nat
  LastUpdatedAt : Nat
  IsActive : Bool
deriving DecidableEq

/-- Embedding of `digitsOnly` from internal/web/web.go: non-empty and every rune in
`'0'..'9'`. -/
def digitsOnly (s : String) : Bool :=
  if s = "" then false
  else s.toList.all (fun c => '0' ≤ c && c ≤ '9')

structure SubscribeForm where
  chat_id : String
  language : String
  refuge : String
  date_from : String
  date_to : String
deriving DecidableEq

/-- A write issued against the subscriber store. -/
inductive StoreWrite where
  | upsert (sub : Subscriber)
  | addQuery (q : Query)
deriving DecidableEq

/-- Environment of the handler: whether DATABASE_URL is set, whether the
store opens, whether the upsert succeeds. -/
structure WebEnv where
  dbURLSet : Bool
  storeOpenOK : Bool
  upsertOK : Bool
deriving DecidableEq

def allowedLang (l : String) : Bool :=
  l = "en" || l = "de" || l = "fr" || l = "es" || l = "it"

def allowedRefuge (r : String) : Bool :=
  r = "*" || r = "Tête Rousse" || r = "du Goûter"

/-- The store section of `handleSubscribe` (everything after
validation): open the store, upsert the subscriber, add the query,
redirect with 303. -/
def subscribeWrite (form : SubscribeForm) (env : WebEnv) :
    Nat × List StoreWrite :=
  if !env.dbURLSet then (500, [])
  else if !env.storeOpenOK then (500, [])
  else
    let sub : Subscriber :=
      ⟨form.chat_id, "", "", "", form.language, "", 0, 0, true⟩
    if !env.upsertOK then (500, [StoreWrite.upsert sub])
    else
      (303, [StoreWrite.upsert sub,
        StoreWrite.addQuery
          ⟨"", form.chat_id, form.refuge, form.date_from, form.date_to, 0, 0⟩])

/-- Embedding of `handleSubscribe` on a POST with a parsed form: the HTTP status it
answers and the store writes it issues, following the handler's early
returns. -/
def handleSubscribe (form : SubscribeForm) (env : WebEnv) :
    Nat × List StoreWrite :=
  if form.chat_id = "" then (400, [])
  else if !digitsOnly form.chat_id then (400, [])
  else if form.language ≠ "" ∧ allowedLang form.language = false then (400, [])
  else if form.refuge ≠ "" ∧ allowedRefuge form.refuge = false then (400, [])
  else if form.date_from ≠ "" ∧ form.date_to ≠ "" then
    match parseDateGo form.date_from, parseDateGo form.date_to with
    | some df, some dt =>
      if dateLt dt df then (400, []) else subscribeWrite form env
    | _, _ => (400, [])
  else subscribeWrite form env

/-! ## Subscriber store upserts (bolt.go / pg.go) -/

def freePlan : String := "free"

/-- Embedding of `BoltStore.UpsertSubscriber`: reject an empty chat id, default the
creation timestamp and plan, refresh the update timestamp, force the
active flag, then `Put` the record under the chat id key (overwriting
any existing record wholesale). -/
def boltUpsertSubscriber (store : List (String × Subscriber))
    (sub : Subscriber) (now : Nat) :
    Except String (List (String × Subscriber)) :=
  if sub.ChatID = "" then Except.error "chat id required"
  else
    let sub1 := if sub.CreatedAt = 0 then { sub with CreatedAt := now } else sub
    let sub2 := { sub1 with LastUpdatedAt := now }
    let sub3 := if sub2.Plan = "" then { sub2 with Plan := freePlan } else sub2
    let sub4 := { sub3 with IsActive := true }
    Except.ok (putKV store sub4.ChatID sub4)

/-- Embedding of `PgStore.UpsertSubscriber`: the same Go-side defaults for creation
timestamp and plan and the same update-timestamp refresh, then the SQL
`insert ... on conflict (chat_id) do update` which overwrites every
column except `created_at`; the `is_active` flag is passed through
unchanged (the schema default only applies to inserts that omit the
column, which this statement never does). -/
def pgUpsertSubscriber (table : List (String × Subscriber))
    (sub : Subscriber) (now : Nat) : List (String × Subscriber) :=
  let sub1 := if sub.CreatedAt = 0 then { sub with CreatedAt := now } else sub
  let sub2 := { sub1 with LastUpdatedAt := now }
  let sub3 := if sub2.Plan = "" then { sub2 with Plan := freePlan } else sub2
  match lookupKV table sub3.ChatID with
  | none => putKV table sub3.ChatID sub3
  | some old => putKV table sub3.ChatID { sub3 with CreatedAt := old.CreatedAt }

/-! ## Lemmas about the snapshot scan -/

theorem scanDates_preserves (name : String) (dates : List (String × String))
    (acc : List Avail) (n : List String) (d : String) (hd : d ∈ n) :
    d ∈ (scanDates name dates acc n).2 := by
  induction dates generalizing acc n with
  | nil => simpa [scanDates] using hd
  | cons p rest ih =>
    obtain ⟨date, status⟩ := p
    simp only [scanDates]
    by_cases h : status ≠ fullMarker ∧ date ∉ n
    · rw [if_pos h]
      exact ih _ _ (List.mem_cons_of_mem _ hd)
    · rw [if_neg h]
      exact ih _ _ hd

theorem scanDates_new (name : String) (dates : List (String × String))
    (acc : List Avail) (n : List String) (a : Avail)
    (ha : a ∈ (scanDates name dates acc n).1) :
    a ∈ acc ∨ (a.status ≠ fullMarker ∧ a.date ∉ n ∧
      a.date ∈ (scanDates name dates acc n).2) := by
  induction dates generalizing acc n with
  | nil => exact Or.inl (by simpa [scanDates] using ha)
  | cons p rest ih =>
    obtain ⟨date, status⟩ := p
    simp only [scanDates] at ha ⊢
    by_cases h : status ≠ fullMarker ∧ date ∉ n
    · rw [if_pos h] at ha ⊢
      rcases ih _ _ ha with hacc | hnew
      · rcases List.mem_append.1 hacc with h₁ | h₂
        · exact Or.inl h₁
        · refine Or.inr ?_
          have he : a = ⟨name, date, status⟩ := by simpa using h₂
          subst he
          exact ⟨h.1, h.2,
            scanDates_preserves _ _ _ _ _ (List.mem_cons_self _ _)⟩
      · refine Or.inr ⟨hnew.1, fun hmem => hnew.2.1 ?_, hnew.2.2⟩
        exact List.mem_cons_of_mem _ hmem
    · rw [if_neg h] at ha ⊢
      exact ih _ _ ha

theorem scanDates_set_sub (name : String) (dates : List (String × String))
    (acc : List Avail) (n : List String) (d : String)
    (hd : d ∈ (scanDates name dates acc n).2) :
    d ∈ n ∨ ∃ s, (d, s) ∈ dates ∧ s ≠ fullMarker := by
  induction dates generalizing acc n with
  | nil => exact Or.inl (by simpa [scanDates] using hd)
  | cons p rest ih =>
    obtain ⟨date, status⟩ := p
    simp only [scanDates] at hd
    by_cases h : status ≠ fullMarker ∧ date ∉ n
    · rw [if_pos h] at hd
      rcases ih _ _ hd with hmem | ⟨s, hs, hsf⟩
      · rcases List.mem_cons.1 hmem with he | hn
        · exact Or.inr ⟨status, by simp [he], h.1⟩
        · exact Or.inl hn
      · exact Or.inr ⟨s, List.mem_cons_of_mem _ hs, hsf⟩
    · rw [if_neg h] at hd
      rcases ih _ _ hd with hmem | ⟨s, hs, hsf⟩
      · exact Or.inl hmem
      · exact Or.inr ⟨s, List.mem_cons_of_mem _ hs, hsf⟩

theorem scanDates_set_super (name : String) (dates : List (String × String))
    (acc : List Avail) (n : List String) (d s : String)
    (hmem : (d, s) ∈ dates) (hs : s ≠ fullMarker) :
    d ∈ (scanDates name dates acc n).2 := by
  induction dates generalizing acc n with
  | nil => simp at hmem
  | cons p rest ih =>
    obtain ⟨date, status⟩ := p
    simp only [scanDates]
    rcases List.mem_cons.1 hmem with he | hrest
    · obtain ⟨hd, hst⟩ : d = date ∧ s = status := by
        constructor <;> simp_all
      subst hd; subst hst
      by_cases h : s ≠ fullMarker ∧ d ∉ n
      · rw [if_pos h]
        exact scanDates_preserves _ _ _ _ _ (List.mem_cons_self _ _)
      · have hd : d ∈ n := by
          by_contra hdn
          exact h ⟨hs, hdn⟩
        rw [if_neg h]
        exact scanDates_preserves _ _ _ _ _ hd
    · by_cases h : status ≠ fullMarker ∧ date ∉ n
      · rw [if_pos h]
        exact ih _ _ hrest
      · rw [if_neg h]
        exact ih _ _ hrest

theorem scanAll_preserves (rs : List Refuge) (acc : List Avail)
    (n : List String) (d : String) (hd : d ∈ n) :
    d ∈ (scanAll rs acc n).2 := by
  induction rs generalizing acc n with
  | nil => simpa [scanAll] using hd
  | cons rf rest ih =>
    simp only [scanAll]
    exact ih _ _ (scanDates_preserves _ _ _ _ _ hd)

theorem scanAll_new (rs : List Refuge) (acc : List Avail) (n : List String)
    (a : Avail) (ha : a ∈ (scanAll rs acc n).1) :
    a ∈ acc ∨ (a.status ≠ fullMarker ∧ a.date ∉ n ∧
      a.date ∈ (scanAll rs acc n).2) := by
  induction rs generalizing acc n with
  | nil => exact Or.inl (by simpa [scanAll] using ha)
  | cons rf rest ih =>
    simp only [scanAll] at ha ⊢
    rcases ih _ _ ha with hmid | hnew
    · rcases scanDates_new _ _ _ _ _ hmid with hacc | hd
      · exact Or.inl hacc
      · exact Or.inr ⟨hd.1, hd.2.1, scanAll_preserves _ _ _ _ hd.2.2⟩
    · refine Or.inr ⟨hnew.1, fun hmem => ?_, hnew.2.2⟩
      exact hnew.2.1 (scanDates_preserves _ _ _ _ _ hmem)

theorem scanAll_set_sub (rs : List Refuge) (acc : List Avail)
    (n : List String) (d : String) (hd : d ∈ (scanAll rs acc n).2) :
    d ∈ n ∨ ∃ rf ∈ rs, ∃ s, (d, s) ∈ rf.Dates ∧ s ≠ fullMarker := by
  induction rs generalizing acc n with
  | nil => exact Or.inl (by simpa [scanAll] using hd)
  | cons rf rest ih =>
    simp only [scanAll] at hd
    rcases ih _ _ hd with hmid | ⟨rf₀, hrf₀, hs⟩
    · rcases scanDates_set_sub _ _ _ _ _ hmid with hmem | ⟨s, hs, hsf⟩
      · exact Or.inl hmem
      · exact Or.inr ⟨rf, List.mem_cons_self _ _, s, hs, hsf⟩
    · exact Or.inr ⟨rf₀, List.mem_cons_of_mem _ hrf₀, hs⟩

theorem scanAll_set_super (rs : List Refuge) (acc : List Avail)
    (n : List String) (d s : String) (rf : Refuge) (hrf : rf ∈ rs)
    (hmem : (d, s) ∈ rf.Dates) (hs : s ≠ fullMarker) :
    d ∈ (scanAll rs acc n).2 := by
  induction rs generalizing acc n with
  | nil => simp at hrf
  | cons rf₀ rest ih =>
    simp only [scanAll]
    rcases List.mem_cons.1 hrf with he | hrest
    · subst he
      exact scanAll_preserves _ _ _ _ (scanDates_set_super _ _ _ _ _ _ hmem hs)
    · exact ih _ _ hrest

theorem runCycles_avoids (snaps : List (List Refuge)) (n : List String)
    (d : String) (hd : d ∈ n) :
    ∀ msgs ∈ (runCycles snaps n).1, ∀ a ∈ msgs, a.date ≠ d := by
  induction snaps generalizing n with
  | nil => simp [runCycles]
  | cons rs rest ih =>
    intro msgs hmsgs a ha
    simp only [runCycles, List.mem_cons] at hmsgs
    rcases hmsgs with he | hrest
    · subst he
      rcases scanAll_new _ _ _ _ ha with hacc | hnew
      · simp at hacc
      · intro hcontra
        exact hnew.2.1 (hcontra ▸ hd)
    · exact ih _ (scanAll_preserves _ _ _ _ hd) msgs hrest a ha

theorem fanoutMarkOne_mem (avails : List Avail) (qs : List Query)
    (n : List String) (h : ∀ a ∈ avails, a.date ∈ n) (d : String) :
    d ∈ fanoutMarkOne avails qs n ↔ d ∈ n := by
  induction avails generalizing n with
  | nil => simp [fanoutMarkOne]
  | cons a rest ih =>
    have hstep : fanoutMarkOne (a :: rest) qs n = fanoutMarkOne rest qs
        (if qs.any (fun q => queryMatches a.refuge a.date q) then a.date :: n
         else n) := rfl
    rw [hstep]
    by_cases hm : qs.any (fun q => queryMatches a.refuge a.date q) = true
    · rw [if_pos hm]
      have hmemn : a.date ∈ n := h a (List.mem_cons_self _ _)
      have hrest : ∀ b ∈ rest, b.date ∈ a.date :: n :=
        fun b hb => List.mem_cons_of_mem _ (h b (List.mem_cons_of_mem _ hb))
      rw [ih _ hrest]
      constructor
      · intro hdc
        rcases List.mem_cons.1 hdc with he | hn
        · exact he ▸ hmemn
        · exact hn
      · exact List.mem_cons_of_mem _
    · rw [if_neg hm]
      exact ih _ (fun b hb => h b (List.mem_cons_of_mem _ hb))

theorem fanoutMark_mem (avails : List Avail)
    (subscriberQueries : List (List Query)) (n : List String)
    (h : ∀ a ∈ avails, a.date ∈ n) (d : String) :
    d ∈ fanoutMark avails subscriberQueries n ↔ d ∈ n := by
  induction subscriberQueries generalizing n with
  | nil => simp [fanoutMark]
  | cons qs rest ih =>
    have hstep : fanoutMark avails (qs :: rest) n = fanoutMark avails rest
        (if qs.length = 0 then n else fanoutMarkOne avails qs n) := rfl
    rw [hstep]
    by_cases hq : qs.length = 0
    · rw [if_pos hq]
      exact ih _ h
    · rw [if_neg hq]
      have hsub : ∀ a ∈ avails, a.date ∈ fanoutMarkOne avails qs n :=
        fun a ha => (fanoutMarkOne_mem avails qs n h a.date).2 (h a ha)
      rw [ih _ hsub]
      exact fanoutMarkOne_mem avails qs n h d

/-! ## The claims -/

/-- C1: in every polling cycle, a date qualifies for announcement only
if its status is not the `"Full"` marker and it is not already in the
notified-date set; and once a date is in the notified-date set after a
scan, no later cycle (over any sequence of further snapshots, whatever
the statuses of that date there) ever puts an availability line for that
date into a general notification again. -/
theorem dedup_rule_and_ratchet (rs : List Refuge) (n : List String)
    (snaps : List (List Refuge)) (d : String) :
    (∀ a ∈ (scanRefuges rs n).1, a.status ≠ fullMarker ∧ a.date ∉ n) ∧
    (d ∈ (scanRefuges rs n).2 →
      ∀ msgs ∈ (runCycles snaps (scanRefuges rs n).2).1, ∀ a ∈ msgs,
        a.date ≠ d) := by
  constructor
  · intro a ha
    rcases scanAll_new _ _ _ _ ha with hacc | hnew
    · simp at hacc
    · exact ⟨hnew.1, hnew.2.1⟩
  · intro hd
    exact runCycles_avoids _ _ _ hd

/-- Witness for C1: the date notified by the first cycle is in the set,
and a second cycle that still lists it (now with one place) does not
announce it again. -/
theorem dedup_rule_and_ratchet_witness :
    "2025-08-03" ∈ (scanRefuges [⟨"Tête Rousse", [("2025-08-03", "2")]⟩] []).2 ∧
    (∀ msgs ∈ (runCycles [[⟨"Tête Rousse", [("2025-08-03", "1")]⟩]]
        (scanRefuges [⟨"Tête Rousse", [("2025-08-03", "2")]⟩] []).2).1,
      ∀ a ∈ msgs, a.date ≠ "2025-08-03") :=
  ⟨by decide,
    (dedup_rule_and_ratchet [⟨"Tête Rousse", [("2025-08-03", "2")]⟩] []
      [[⟨"Tête Rousse", [("2025-08-03", "1")]⟩]] "2025-08-03").2 (by decide)⟩

/-- C10: during the snapshot scan every non-`"Full"` date becomes a
member of the notified-date set (the set after the scan is exactly the
old set plus all non-full dates of the snapshot), and the per-subscriber
fan-out that runs afterwards never changes the set's membership — so the
date stays suppressed no matter whether any saved query matched it or
any delivery succeeded (deliveries are not inputs of either function). -/
theorem scan_marks_nonfull_before_send (rs : List Refuge) (n : List String)
    (d : String) (subscriberQueries : List (List Query)) :
    (d ∈ (scanRefuges rs n).2 ↔
      d ∈ n ∨ ∃ rf ∈ rs, ∃ s, (d, s) ∈ rf.Dates ∧ s ≠ fullMarker) ∧
    (d ∈ fanoutMark (scanRefuges rs n).1 subscriberQueries
        (scanRefuges rs n).2 ↔ d ∈ (scanRefuges rs n).2) := by
  constructor
  · constructor
    · exact fun hd => scanAll_set_sub _ _ _ _ hd
    · rintro (hd | ⟨rf, hrf, s, hmem, hs⟩)
      · exact scanAll_preserves _ _ _ _ hd
      · exact scanAll_set_super _ _ _ _ _ _ hrf hmem hs
  · refine fanoutMark_mem _ _ _ ?_ d
    intro a ha
    rcases scanAll_new _ _ _ _ ha with hacc | hnew
    · simp at hacc
    · exact hnew.2.2

/-! ## Purity of extraction on marker-free documents -/

theorem parseRefugeContent_no_marker (retry : Nat → Except PErr RefugeHtml)
    (year fuel depth : Nat) (doc : RefugeHtml)
    (dates : List (String × String))
    (h1 : containsSub doc.content loginMarker = false)
    (h2 : containsSub doc.content waitingMarker = false) :
    parseRefugeContent retry year fuel depth doc dates =
      Except.ok (doc.completDays.foldl (addComplet year)
        (doc.dispoDays.foldl (addDispo year) dates)) := by
  rw [parseRefugeContent.eq_def]
  simp [h1, h2]

/-- C4: an input with no available and no full day entries (and
neither upstream marker) extracts to the empty mapping as a regular,
non-error result. -/
theorem empty_calendar_extracts_ok (content : String)
    (year fuel depth : Nat) (retry : Nat → Except PErr RefugeHtml)
    (h1 : containsSub content loginMarker = false)
    (h2 : containsSub content waitingMarker = false) :
    parseRefugeContent retry year fuel depth ⟨content, [], []⟩ [] =
      Except.ok [] :=
  parseRefugeContent_no_marker retry year fuel depth ⟨content, [], []⟩ [] h1 h2

/-- Witness for C4 on a concrete marker-free page. -/
theorem empty_calendar_extracts_ok_witness :
    parseRefugeContent (fun _ => Except.error PErr.fetchFailed) 2025 1 0
      ⟨"<html><body>nothing here</body></html>", [], []⟩ [] =
      Except.ok [] :=
  empty_calendar_extracts_ok "<html><body>nothing here</body></html>"
    2025 1 0 (fun _ => Except.error PErr.fetchFailed) (by decide) (by decide)

/-- C9: on a document containing neither the waiting-room marker nor
the login marker, extraction depends only on the document and the anchor
year: any two runs — with different refetch oracles, fuel and retry
depth — return the same mapping. -/
theorem extraction_is_pure (doc : RefugeHtml) (year : Nat)
    (r1 r2 : Nat → Except PErr RefugeHtml) (f1 f2 d1 d2 : Nat)
    (dates : List (String × String))
    (h1 : containsSub doc.content loginMarker = false)
    (h2 : containsSub doc.content waitingMarker = false) :
    parseRefugeContent r1 year f1 d1 doc dates =
      parseRefugeContent r2 year f2 d2 doc dates := by
  rw [parseRefugeContent_no_marker r1 year f1 d1 doc dates h1 h2,
    parseRefugeContent_no_marker r2 year f2 d2 doc dates h1 h2]

/-- Witness for C9: two runs over the same fixture with different
oracles, fuel and depth agree. -/
theorem extraction_is_pure_witness :
    parseRefugeContent (fun _ => Except.error PErr.fetchFailed) 2025 0 0
      ⟨"calendar", [⟨some "08/03", some "2"⟩], ["08/10"]⟩ [] =
      parseRefugeContent (fun _ => Except.ok ⟨"refetched", [], []⟩) 2025 7 3
        ⟨"calendar", [⟨some "08/03", some "2"⟩], ["08/10"]⟩ [] :=
  extraction_is_pure ⟨"calendar", [⟨some "08/03", some "2"⟩], ["08/10"]⟩ 2025
    (fun _ => Except.error PErr.fetchFailed)
    (fun _ => Except.ok ⟨"refetched", [], []⟩) 0 7 0 3 [] (by decide) (by decide)

/-! ## Counting extractor entries -/

/-- An available entry with both spans present, non-empty trimmed texts
and a two-part day token — the condition under which the `.day.dispo`
callback records an entry. -/
def dispoValid (d : DispoDay) : Bool :=
  match d.dateSpan, d.placeSpan with
  | some ds, some ps =>
    trimGo ds ≠ "" && trimGo ps ≠ "" && (splitSlash (trimGo ds)).length = 2
  | _, _ => false

/-- The date key a valid available entry is stored under. -/
def dispoKey (year : Nat) (d : DispoDay) : String :=
  match d.dateSpan with
  | some ds =>
    match splitSlash (trimGo ds) with
    | [month, day] => formattedDate year month day
    | _ => ""
  | none => ""

/-- The place count a valid available entry stores. -/
def dispoPlaces (d : DispoDay) : String :=
  match d.placeSpan with
  | some ps => trimGo ps
  | none => ""

/-- A full entry with a non-empty trimmed text and two-part day token. -/
def completValid (c : String) : Bool :=
  trimGo c ≠ "" && (splitSlash (trimGo c)).length = 2

/-- The date key a valid full entry is stored under. -/
def completKey (year : Nat) (c : String) : String :=
  match splitSlash (trimGo c) with
  | [month, day] => formattedDate year month day
  | _ => ""

/-- Writing a batch of key/value pairs into a Go map. -/
def putAll (m : List (String × String)) (ps : List (String × String)) :
    List (String × String) :=
  ps.foldl (fun acc p => putKV acc p.1 p.2) m

theorem putAll_append (m : List (String × String))
    (ps qs : List (String × String)) :
    putAll m (ps ++ qs) = putAll (putAll m ps) qs := by
  simp [putAll, List.foldl_append]

theorem putAll_length (ps : List (String × String))
    (m : List (String × String))
    (hfresh : ∀ k ∈ ps.map Prod.fst, lookupKV m k = none)
    (hnd : (ps.map Prod.fst).Nodup) :
    (putAll m ps).length = m.length + ps.length := by
  induction ps generalizing m with
  | nil => simp [putAll]
  | cons p rest ih =>
    have hstep : putAll m (p :: rest) = putAll (putKV m p.1 p.2) rest := rfl
    rw [hstep]
    simp only [List.map_cons, List.nodup_cons] at hnd
    have hfresh2 : ∀ k ∈ rest.map Prod.fst,
        lookupKV (putKV m p.1 p.2) k = none := by
      intro k hk
      have hne : p.1 ≠ k := fun he => hnd.1 (he ▸ hk)
      rw [lookupKV_putKV_ne m p.1 k p.2 hne]
      exact hfresh k (by simp [hk])
    rw [ih _ hfresh2 hnd.2,
      length_putKV_fresh m p.1 p.2 (hfresh p.1 (by simp))]
    simp only [List.length_cons]
    omega

theorem putAll_lookup_notin (ps : List (String × String))
    (m : List (String × String)) (k : String)
    (hk : k ∉ ps.map Prod.fst) :
    lookupKV (putAll m ps) k = lookupKV m k := by
  induction ps generalizing m with
  | nil => rfl
  | cons p rest ih =>
    have hstep : putAll m (p :: rest) = putAll (putKV m p.1 p.2) rest := rfl
    rw [hstep]
    simp only [List.map_cons, List.mem_cons] at hk
    push_neg at hk
    rw [ih _ hk.2, lookupKV_putKV_ne m p.1 k p.2 (Ne.symm hk.1)]

theorem putAll_lookup_mem (ps : List (String × String))
    (m : List (String × String))
    (hfresh : ∀ k ∈ ps.map Prod.fst, lookupKV m k = none)
    (hnd : (ps.map Prod.fst).Nodup) (p : String × String) (hp : p ∈ ps) :
    lookupKV (putAll m ps) p.1 = some p.2 := by
  induction ps generalizing m with
  | nil => simp at hp
  | cons q rest ih =>
    have hstep : putAll m (q :: rest) = putAll (putKV m q.1 q.2) rest := rfl
    rw [hstep]
    simp only [List.map_cons, List.nodup_cons] at hnd
    have hfresh2 : ∀ k ∈ rest.map Prod.fst,
        lookupKV (putKV m q.1 q.2) k = none := by
      intro k hk
      have hne : q.1 ≠ k := fun he => hnd.1 (he ▸ hk)
      rw [lookupKV_putKV_ne m q.1 k q.2 hne]
      exact hfresh k (by simp [hk])
    rcases List.mem_cons.1 hp with he | hrest
    · subst he
      rw [putAll_lookup_notin rest _ p.1 hnd.1]
      exact lookupKV_putKV_self m p.1 p.2
    · exact ih _ hfresh2 hnd.2 hrest

theorem addDispo_eq_putKV (year : Nat) (dates : List (String × String))
    (d : DispoDay) (h : dispoValid d = true) :
    addDispo year dates d = putKV dates (dispoKey year d) (dispoPlaces d) := by
  obtain ⟨ods, ops⟩ := d
  cases ods with
  | none => simp [dispoValid] at h
  | some ds =>
    cases ops with
    | none => simp [dispoValid] at h
    | some ps =>
      simp only [dispoValid, Bool.and_eq_true, decide_eq_true_eq] at h
      obtain ⟨⟨hds, hps⟩, hlen⟩ := h
      obtain ⟨month, day, hsplit⟩ := List.length_eq_two.1 hlen
      simp only [addDispo, dispoKey, dispoPlaces, hsplit]
      have hcond : trimGo ds ≠ "" ∧ trimGo ps ≠ "" := ⟨hds, hps⟩
      rw [if_pos hcond]

theorem addComplet_eq_putKV (year : Nat) (dates : List (String × String))
    (c : String) (h : completValid c = true) :
    addComplet year dates c = putKV dates (completKey year c) fullMarker := by
  simp only [completValid, Bool.and_eq_true, decide_eq_true_eq] at h
  obtain ⟨hc, hlen⟩ := h
  obtain ⟨month, day, hsplit⟩ := List.length_eq_two.1 hlen
  simp only [addComplet, completKey, hsplit]
  rw [if_pos hc]

theorem foldl_addDispo_eq (year : Nat) (ds : List DispoDay)
    (m : List (String × String)) (h : ∀ d ∈ ds, dispoValid d = true) :
    ds.foldl (addDispo year) m =
      putAll m (ds.map (fun d => (dispoKey year d, dispoPlaces d))) := by
  induction ds generalizing m with
  | nil => rfl
  | cons d rest ih =>
    have hstep :
        putAll m ((d :: rest).map (fun d => (dispoKey year d, dispoPlaces d))) =
          putAll (putKV m (dispoKey year d) (dispoPlaces d))
            (rest.map (fun d => (dispoKey year d, dispoPlaces d))) := rfl
    rw [hstep, List.foldl_cons,
      addDispo_eq_putKV year m d (h d (List.mem_cons_self _ _))]
    exact ih _ (fun d hd => h d (List.mem_cons_of_mem _ hd))

theorem foldl_addComplet_eq (year : Nat) (cs : List String)
    (m : List (String × String)) (h : ∀ c ∈ cs, completValid c = true) :
    cs.foldl (addComplet year) m =
      putAll m (cs.map (fun c => (completKey year c, fullMarker))) := by
  induction cs generalizing m with
  | nil => rfl
  | cons c rest ih =>
    have hstep :
        putAll m ((c :: rest).map (fun c => (completKey year c, fullMarker))) =
          putAll (putKV m (completKey year c) fullMarker)
            (rest.map (fun c => (completKey year c, fullMarker))) := rfl
    rw [hstep, List.foldl_cons,
      addComplet_eq_putKV year m c (h c (List.mem_cons_self _ _))]
    exact ih _ (fun c hc => h c (List.mem_cons_of_mem _ hc))

/-- C2 amended: for every marker-free input whose `N` available
entries and `M` full entries are all valid **and whose resulting
anchor-year dates are pairwise distinct**, the extractor returns exactly
`N + M` entries, with every full entry stored as the `"Full"` marker and
every available entry stored as its place count.  The distinctness
hypothesis is forced: without it duplicate day tokens collapse into one
map entry (see the counterexample). -/
theorem extractor_entry_count (retry : Nat → Except PErr RefugeHtml)
    (year fuel depth : Nat) (content : String) (ds : List DispoDay)
    (cs : List String)
    (h1 : containsSub content loginMarker = false)
    (h2 : containsSub content waitingMarker = false)
    (hd : ∀ d ∈ ds, dispoValid d = true)
    (hc : ∀ c ∈ cs, completValid c = true)
    (hnd : (ds.map (dispoKey year) ++ cs.map (completKey year)).Nodup) :
    ∃ m, parseRefugeContent retry year fuel depth ⟨content, ds, cs⟩ [] =
        Except.ok m ∧
      m.length = ds.length + cs.length ∧
      (∀ d ∈ ds, lookupKV m (dispoKey year d) = some (dispoPlaces d)) ∧
      (∀ c ∈ cs, lookupKV m (completKey year c) = some fullMarker) := by
  have hres := parseRefugeContent_no_marker retry year fuel depth
    ⟨content, ds, cs⟩ [] h1 h2
  have hm : (⟨content, ds, cs⟩ : RefugeHtml).completDays.foldl
      (addComplet year)
      ((⟨content, ds, cs⟩ : RefugeHtml).dispoDays.foldl (addDispo year) []) =
      putAll [] (ds.map (fun d => (dispoKey year d, dispoPlaces d)) ++
        cs.map (fun c => (completKey year c, fullMarker))) := by
    show cs.foldl (addComplet year) (ds.foldl (addDispo year) []) = _
    rw [foldl_addDispo_eq year ds [] hd, foldl_addComplet_eq year cs _ hc,
      putAll_append]
  set ps := ds.map (fun d => (dispoKey year d, dispoPlaces d)) ++
    cs.map (fun c => (completKey year c, fullMarker)) with hps
  have hkeys : ps.map Prod.fst =
      ds.map (dispoKey year) ++ cs.map (completKey year) := by
    simp only [hps, List.map_append, List.map_map]
    rfl
  have hfresh : ∀ k ∈ ps.map Prod.fst,
      lookupKV ([] : List (String × String)) k = none := fun k _ => rfl
  have hnd2 : (ps.map Prod.fst).Nodup := by rw [hkeys]; exact hnd
  refine ⟨putAll [] ps, ?_, ?_, ?_, ?_⟩
  · rw [hres, hm]
  · rw [putAll_length ps [] hfresh hnd2]
    simp [hps]
  · intro d hdm
    exact putAll_lookup_mem ps [] hfresh hnd2 _
      (List.mem_append_left _ (List.mem_map_of_mem _ hdm))
  · intro c hcm
    exact putAll_lookup_mem ps [] hfresh hnd2 _
      (List.mem_append_right _ (List.mem_map_of_mem _ hcm))

/-- Counterexample to C2 as literally stated: two valid available
entries that both carry the day token `"08/03"` (so `N = 2`, `M = 0`)
extract to a single map entry, not `N + M = 2`. -/
theorem extractor_entry_count_counterexample :
    parseRefugeContent (fun _ => Except.error PErr.fetchFailed) 2025 0 0
      ⟨"", [⟨some "08/03", some "2"⟩, ⟨some "08/03", some "2"⟩], []⟩ [] =
      Except.ok [("2025-08-03", "2")] ∧
    ([("2025-08-03", "2")] : List (String × String)).length = 1 ∧
    ([⟨some "08/03", some "2"⟩, ⟨some "08/03", some "2"⟩] :
      List DispoDay).length + ([] : List String).length = 2 :=
  ⟨by rfl, by rfl, by rfl⟩

/-- Witness for the amended C2 at the spec's own examples: one available
entry `"08/03"` with count `"2"` and one full entry `"08/10"`, anchor
year 2025. -/
theorem extractor_entry_count_witness :
    ∃ m, parseRefugeContent (fun _ => Except.error PErr.fetchFailed)
        2025 0 0 ⟨"page", [⟨some "08/03", some "2"⟩], ["08/10"]⟩ [] =
        Except.ok m ∧
      m.length = 1 + 1 ∧
      (∀ d ∈ [(⟨some "08/03", some "2"⟩ : DispoDay)],
        lookupKV m (dispoKey 2025 d) = some (dispoPlaces d)) ∧
      (∀ c ∈ ["08/10"], lookupKV m (completKey 2025 c) = some fullMarker) :=
  extractor_entry_count (fun _ => Except.error PErr.fetchFailed) 2025 0 0
    "page" [⟨some "08/03", some "2"⟩] ["08/10"] (by decide) (by decide)
    (by decide) (by decide) (by decide)

/-! ## The zero-date and login-page cycles -/

/-- A polling pass in which both refuges return a marker-free page with
no day entries at all. -/
def emptyCalendarInputs : List RefugeFetch :=
  [⟨"Tête Rousse", Except.ok ⟨"<html></html>", [], []⟩,
    fun _ => Except.error PErr.fetchFailed⟩,
   ⟨"du Goûter", Except.ok ⟨"<html></html>", [], []⟩,
    fun _ => Except.error PErr.fetchFailed⟩]

/-- C3, evaluated at the failing input: in a cycle where every
location yields zero dates, `ParseRefugeAvailability` already fails with
the generic no-dates error, so `fetchRefugesWindow` propagates an error
and the main loop takes its log-and-continue branch: the `totalDates ==
0` warning branch is unreachable and the cycle sends zero scrape-failure
warnings and zero availability notifications — not the claimed single
warning. -/
theorem zero_date_cycle_sends_no_warning :
    ParseRefugeAvailability 5 2025 emptyCalendarInputs =
      Except.error PErr.noDatesFound ∧
    mainCycle (fetchRefugesWindow 5
      [(2025, emptyCalendarInputs), (2025, emptyCalendarInputs),
        (2025, emptyCalendarInputs)]) [] = ⟨0, 0, 0, [], []⟩ :=
  ⟨by rfl, by rfl⟩

/-- A polling pass in which both refuges' response bodies are the login
page (they contain the `"My email"` marker). -/
def loginPageInputs : List RefugeFetch :=
  [⟨"Tête Rousse", Except.ok ⟨"Please enter My email to log in", [], []⟩,
    fun _ => Except.error PErr.fetchFailed⟩,
   ⟨"du Goûter", Except.ok ⟨"Please enter My email to log in", [], []⟩,
    fun _ => Except.error PErr.fetchFailed⟩]

/-- C8, evaluated at the failing input: `parseRefugeContent` does
fail with the distinct `ErrReauthNeeded` on a login-page body, but
`ParseRefugeAvailability` swallows per-refuge parse errors (it logs and
skips the refuge), so the pipeline surfaces the generic no-dates error
instead, and the main loop's `errors.Is(err, parser.ErrReauthNeeded)`
branch never fires: the cycle sends no operator re-authentication
alert. -/
theorem reauth_error_swallowed :
    parseRefugeContent (fun _ => Except.error PErr.fetchFailed) 2025 5 0
      ⟨"Please enter My email to log in", [], []⟩ [] =
      Except.error PErr.reauthRequired ∧
    ParseRefugeAvailability 5 2025 loginPageInputs =
      Except.error PErr.noDatesFound ∧
    mainCycle (fetchRefugesWindow 5
      [(2025, loginPageInputs), (2025, loginPageInputs),
        (2025, loginPageInputs)]) [] = ⟨0, 0, 0, [], []⟩ :=
  ⟨by rfl, by rfl, by rfl⟩

/-! ## Query matching -/

theorem parseDateGo_ne_empty (s : String) (t : Nat × Nat × Nat)
    (h : parseDateGo s = some t) : s ≠ "" := by
  intro he
  subst he
  rw [show parseDateGo "" = none from rfl] at h
  exact Option.noConfusion h

theorem queryMatches_to_only (refuge date : String) (q : Query)
    (t : Nat × Nat × Nat) (hf : q.DateFrom = "")
    (ht : parseDateGo q.DateTo = some t)
    (hl : q.Refuge = "*" ∨ q.Refuge = refuge) :
    queryMatches refuge date q =
      match parseDateGo date with
      | none => false
      | some d => !dateLt t d := by
  have hto : q.DateTo ≠ "" := parseDateGo_ne_empty _ _ ht
  unfold queryMatches
  rw [if_neg (by rintro ⟨h1, h2⟩; rcases hl with h | h; exacts [h1 h, h2 h]),
    if_neg (fun hand => hto hand.2)]
  cases hpd : parseDateGo date with
  | none => rfl
  | some d => simp [hf, hto, ht]

/-- C5: the wildcard query with empty date bounds
matches every refuge/date pair; and any query with an empty lower bound
and a valid upper bound matches exactly the pairs whose location matches
(wildcard or equal) and whose date parses to a calendar date on or
before the bound. -/
theorem queryMatches_wildcard_and_upper_bound (refuge date : String)
    (q q' : Query) (t : Nat × Nat × Nat)
    (hq : q.Refuge = "*" ∧ q.DateFrom = "" ∧ q.DateTo = "")
    (hf : q'.DateFrom = "") (ht : parseDateGo q'.DateTo = some t) :
    queryMatches refuge date q = true ∧
    (queryMatches refuge date q' = true ↔
      ((q'.Refuge = "*" ∨ q'.Refuge = refuge) ∧
        ∃ dv, parseDateGo date = some dv ∧ dateLt t dv = false)) := by
  obtain ⟨hqr, hqf, hqt⟩ := hq
  constructor
  · unfold queryMatches
    rw [if_neg (by rintro ⟨h1, -⟩; exact h1 hqr), if_pos ⟨hqf, hqt⟩]
  · by_cases hloc : q'.Refuge = "*" ∨ q'.Refuge = refuge
    · rw [queryMatches_to_only refuge date q' t hf ht hloc]
      cases hpd : parseDateGo date with
      | none => simp
      | some d => simp [hloc]
    · have hand : q'.Refuge ≠ "*" ∧ q'.Refuge ≠ refuge := by
        push_neg at hloc
        exact hloc
      unfold queryMatches
      rw [if_pos hand]
      simp [hloc]

/-- Witness for C5 at a wildcard query and an upper-bounded query. -/
theorem queryMatches_wildcard_and_upper_bound_witness :
    queryMatches "Tête Rousse" "2025-08-03" ⟨"", "", "*", "", "", 0, 0⟩ =
      true ∧
    (queryMatches "Tête Rousse" "2025-08-03"
        ⟨"", "", "*", "", "2025-08-10", 0, 0⟩ = true ↔
      ((("*" : String) = "*" ∨ ("*" : String) = "Tête Rousse") ∧
        ∃ dv, parseDateGo "2025-08-03" = some dv ∧
          dateLt (2025, 8, 10) dv = false)) :=
  queryMatches_wildcard_and_upper_bound "Tête Rousse" "2025-08-03"
    ⟨"", "", "*", "", "", 0, 0⟩ ⟨"", "", "*", "", "2025-08-10", 0, 0⟩
    (2025, 8, 10) ⟨rfl, rfl, rfl⟩ rfl (by rfl)

/-! ## The subscribe handler -/

/-- C6: a subscribe request whose `chat_id` is empty or contains any
character outside the ASCII digits is answered with a 4xx status (in
fact 400) and issues no store write, whatever the store environment. -/
theorem subscribe_nonnumeric_rejected (form : SubscribeForm) (env : WebEnv)
    (h : form.chat_id = "" ∨
      ∃ c ∈ form.chat_id.toList, ¬('0' ≤ c ∧ c ≤ '9')) :
    400 ≤ (handleSubscribe form env).1 ∧
      (handleSubscribe form env).1 < 500 ∧
      (handleSubscribe form env).2 = [] := by
  by_cases he : form.chat_id = ""
  · unfold handleSubscribe
    rw [if_pos he]
    exact ⟨le_refl _, by omega, rfl⟩
  · have hdig : digitsOnly form.chat_id = false := by
      rcases h with h | ⟨c, hc, hbad⟩
      · exact absurd h he
      · unfold digitsOnly
        rw [if_neg he, Bool.eq_false_iff]
        intro hall
        rw [List.all_eq_true] at hall
        have hcd := hall c hc
        simp at hcd
        exact hbad hcd
    unfold handleSubscribe
    rw [if_neg he, if_pos (by rw [hdig]; rfl)]
    exact ⟨le_refl _, by omega, rfl⟩

/-- Witness for C6: `chat_id` `"12a"` is rejected with 400 and no
writes, even with a fully healthy store environment. -/
theorem subscribe_nonnumeric_rejected_witness :
    400 ≤ (handleSubscribe ⟨"12a", "en", "*", "", ""⟩ ⟨true, true, true⟩).1 ∧
    (handleSubscribe ⟨"12a", "en", "*", "", ""⟩ ⟨true, true, true⟩).1 < 500 ∧
    (handleSubscribe ⟨"12a", "en", "*", "", ""⟩ ⟨true, true, true⟩).2 = [] :=
  subscribe_nonnumeric_rejected ⟨"12a", "en", "*", "", ""⟩ ⟨true, true, true⟩
    (Or.inr ⟨'a', by decide, by decide⟩)

/-! ## Store upserts -/

theorem keysKV_putKV_nodup {α : Type} (m : List (String × α)) (k : String)
    (v : α) (hnd : (keysKV m).Nodup) : (keysKV (putKV m k v)).Nodup := by
  cases hl : lookupKV m k with
  | none =>
    rw [keysKV_putKV_fresh m k v hl]
    have hk : k ∉ keysKV m := (lookupKV_eq_none_iff m k).1 hl
    simp [List.nodup_append, hnd, hk]
  | some w =>
    rw [keysKV_putKV_hit m k v w hl]
    exact hnd

theorem boltUpsert_eq (store : List (String × Subscriber))
    (sub : Subscriber) (now : Nat) (h : sub.ChatID ≠ "") :
    ∃ r, boltUpsertSubscriber store sub now =
        Except.ok (putKV store sub.ChatID r) ∧
      r.ChatID = sub.ChatID ∧ r.Language = sub.Language ∧
      r.LastUpdatedAt = now ∧ (sub.Plan = "" → r.Plan = freePlan) ∧
      (sub.Plan ≠ "" → r.Plan = sub.Plan) ∧ r.IsActive = true := by
  unfold boltUpsertSubscriber
  rw [if_neg h]
  by_cases hc : sub.CreatedAt = 0 <;> by_cases hp : sub.Plan = "" <;>
    simp only [hc, hp, if_true, if_false, ite_true, ite_false] <;>
    exact ⟨_, rfl, by simp [hp]⟩

theorem pgUpsert_eq (table : List (String × Subscriber)) (sub : Subscriber)
    (now : Nat) :
    ∃ r, pgUpsertSubscriber table sub now = putKV table sub.ChatID r ∧
      r.ChatID = sub.ChatID ∧ r.Language = sub.Language ∧
      r.LastUpdatedAt = now ∧ (sub.Plan = "" → r.Plan = freePlan) ∧
      (sub.Plan ≠ "" → r.Plan = sub.Plan) ∧ r.IsActive = sub.IsActive := by
  unfold pgUpsertSubscriber
  by_cases hc : sub.CreatedAt = 0 <;> by_cases hp : sub.Plan = "" <;>
    simp only [hc, hp, if_true, if_false, ite_true, ite_false] <;>
    cases hl : lookupKV table sub.ChatID <;>
    simp only [hl] <;>
    exact ⟨_, rfl, by simp [hp]⟩

/-- C7 amended: `UpsertSubscriber` is an idempotent overwrite
keyed by chat id in both backends — upserting the same identity twice
with different languages leaves exactly one stored record for that chat
id (no duplicate creation), carrying the latest language and a
refreshed update timestamp, and the plan defaults to `"free"` when
absent.  The Bolt backend forces `active = true` on every upsert; the
Postgres backend persists the caller-supplied active flag unchanged
(see the counterexample for the flag the claim expected). -/
theorem upsert_idempotent_overwrite (store : List (String × Subscriber))
    (sub1 sub2 : Subscriber) (t1 t2 : Nat)
    (hnd : (keysKV store).Nodup) (hid : sub1.ChatID = sub2.ChatID)
    (hne : sub2.ChatID ≠ "") :
    (∃ s1 s2, boltUpsertSubscriber store sub1 t1 = Except.ok s1 ∧
      boltUpsertSubscriber s1 sub2 t2 = Except.ok s2 ∧
      countKey s2 sub2.ChatID = 1 ∧ s2.length = s1.length ∧
      ∃ r, lookupKV s2 sub2.ChatID = some r ∧ r.Language = sub2.Language ∧
        r.LastUpdatedAt = t2 ∧ (sub2.Plan = "" → r.Plan = freePlan) ∧
        r.IsActive = true) ∧
    (countKey (pgUpsertSubscriber (pgUpsertSubscriber store sub1 t1) sub2 t2)
        sub2.ChatID = 1 ∧
      (pgUpsertSubscriber (pgUpsertSubscriber store sub1 t1) sub2 t2).length =
        (pgUpsertSubscriber store sub1 t1).length ∧
      ∃ r, lookupKV (pgUpsertSubscriber (pgUpsertSubscriber store sub1 t1)
          sub2 t2) sub2.ChatID = some r ∧ r.Language = sub2.Language ∧
        r.LastUpdatedAt = t2 ∧ (sub2.Plan = "" → r.Plan = freePlan) ∧
        r.IsActive = sub2.IsActive) := by
  have hne1 : sub1.ChatID ≠ "" := by rw [hid]; exact hne
  constructor
  · obtain ⟨r1, he1, hc1, hl1, ht1, hp1, hp1b, ha1⟩ :=
      boltUpsert_eq store sub1 t1 hne1
    obtain ⟨r2, he2, hc2, hl2, ht2, hp2, hp2b, ha2⟩ :=
      boltUpsert_eq (putKV store sub1.ChatID r1) sub2 t2 hne
    refine ⟨putKV store sub1.ChatID r1,
      putKV (putKV store sub1.ChatID r1) sub2.ChatID r2, he1, he2, ?_, ?_,
      r2, lookupKV_putKV_self _ _ _, hl2, ht2, hp2, ha2⟩
    · exact countKey_putKV _ _ _ (keysKV_putKV_nodup store sub1.ChatID r1 hnd)
    · have hlk : lookupKV (putKV store sub1.ChatID r1) sub2.ChatID =
          some r1 := by
        rw [← hid]
        exact lookupKV_putKV_self store sub1.ChatID r1
      exact length_putKV_hit _ _ _ _ hlk
  · obtain ⟨r1, he1, hc1, hl1, ht1, hp1, hp1b, ha1⟩ := pgUpsert_eq store sub1 t1
    obtain ⟨r2, he2, hc2, hl2, ht2, hp2, hp2b, ha2⟩ :=
      pgUpsert_eq (pgUpsertSubscriber store sub1 t1) sub2 t2
    have hnd1 : (keysKV (pgUpsertSubscriber store sub1 t1)).Nodup := by
      rw [he1]
      exact keysKV_putKV_nodup store sub1.ChatID r1 hnd
    have hlk : lookupKV (pgUpsertSubscriber store sub1 t1) sub2.ChatID =
        some r1 := by
      rw [he1, ← hid]
      exact lookupKV_putKV_self store sub1.ChatID r1
    rw [he2]
    exact ⟨countKey_putKV _ _ _ hnd1, length_putKV_hit _ _ _ _ hlk,
      r2, lookupKV_putKV_self _ _ _, hl2, ht2, hp2, ha2⟩

/-- Counterexample to C7 as stated: the Postgres upsert of a subscriber
whose active flag is absent (the Go zero value `false`) stores
`is_active = false` instead of defaulting it to `true` — the insert
supplies the column explicitly, so the schema default never applies. -/
theorem pg_upsert_keeps_inactive_flag :
    (lookupKV (pgUpsertSubscriber []
        ⟨"42", "", "", "", "en", "", 0, 0, false⟩ 7) "42").map
      Subscriber.IsActive = some false := by rfl

/-- Witness for the amended C7: the same chat id upserted with language
`"en"` and then `"de"` in both backends. -/
theorem upsert_idempotent_overwrite_witness :
    (∃ s1 s2, boltUpsertSubscriber []
        ⟨"42", "", "", "", "en", "", 0, 0, false⟩ 3 = Except.ok s1 ∧
      boltUpsertSubscriber s1 ⟨"42", "", "", "", "de", "", 0, 0, true⟩ 7 =
        Except.ok s2 ∧
      countKey s2 "42" = 1 ∧ s2.length = s1.length ∧
      ∃ r, lookupKV s2 "42" = some r ∧ r.Language = "de" ∧
        r.LastUpdatedAt = 7 ∧ (("" : String) = "" → r.Plan = freePlan) ∧
        r.IsActive = true) ∧
    (countKey (pgUpsertSubscriber (pgUpsertSubscriber []
          ⟨"42", "", "", "", "en", "", 0, 0, false⟩ 3)
          ⟨"42", "", "", "", "de", "", 0, 0, true⟩ 7) "42" = 1 ∧
      (pgUpsertSubscriber (pgUpsertSubscriber []
          ⟨"42", "", "", "", "en", "", 0, 0, false⟩ 3)
          ⟨"42", "", "", "", "de", "", 0, 0, true⟩ 7).length =
        (pgUpsertSubscriber []
          ⟨"42", "", "", "", "en", "", 0, 0, false⟩ 3).length ∧
      ∃ r, lookupKV (pgUpsertSubscriber (pgUpsertSubscriber []
          ⟨"42", "", "", "", "en", "", 0, 0, false⟩ 3)
          ⟨"42", "", "", "", "de", "", 0, 0, true⟩ 7) "42" = some r ∧
        r.Language = "de" ∧ r.LastUpdatedAt = 7 ∧
        (("" : String) = "" → r.Plan = freePlan) ∧ r.IsActive = true) :=
  upsert_idempotent_overwrite [] ⟨"42", "", "", "", "en", "", 0, 0, false⟩
    ⟨"42", "", "", "", "de", "", 0, 0, true⟩ 3 7 List.nodup_nil rfl
    (by decide)

end Montblanc
